import Mathlib

/-!
Verification of the May-I card game rules engine.

This file is a shallow embedding, in Lean 4, of the game engine found in
MayI.js: the card and deck model, the meld validator (sets and runs with
wildcards), and the room orchestrator operations (deal, draw, discard,
buy arbitration, meld, swap, add-to-meld).  JavaScript arrays become Lean
lists, the mutable room object becomes an explicit GameState record that
every operation threads, and operations that can throw at runtime return
an Option whose none constructor marks the thrown exception.  Each
definition is translated from the corresponding JavaScript function and
keeps its name where possible.
-/

namespace MayI

/-- A playing card as built by the Card class: integer id, rank and suit
strings, point value, and the order value used for run adjacency and set
equality.  The rank whose order is 2 is the universal wildcard. -/
structure Card where
  id : Nat
  rank : String
  suit : String
  value : Nat
  order : Nat
deriving DecidableEq, Repr

instance : Inhabited Card := ⟨⟨0, "", "", 0, 0⟩⟩

/-- The four suits, in the order the deck constructor iterates them. -/
def suits : List String := ["Clubs", "Diamonds", "Hearts", "Spades"]

/-- The thirteen ranks, in the order the deck constructor iterates them. -/
def ranks : List String :=
  ["A", "2", "3", "4", "5", "6", "7", "8", "9", "10", "J", "Q", "K"]

/-- The values map: score contribution of each rank (the wildcard rank 2
scores 20). -/
def valuesMap : List (String × Nat) :=
  [("A", 1), ("2", 20), ("3", 3), ("4", 4), ("5", 5), ("6", 6), ("7", 7),
   ("8", 8), ("9", 9), ("10", 10), ("J", 10), ("Q", 10), ("K", 10)]

/-- The order map: sequence position of each rank. -/
def orderMap : List (String × Nat) :=
  [("A", 1), ("2", 2), ("3", 3), ("4", 4), ("5", 5), ("6", 6), ("7", 7),
   ("8", 8), ("9", 9), ("10", 10), ("J", 11), ("Q", 12), ("K", 13)]

/-- Value of a rank, as values.get(r). -/
def valueOf (r : String) : Nat := (valuesMap.lookup r).getD 0

/-- Order of a rank, as order.get(r). -/
def orderOf (r : String) : Nat := (orderMap.lookup r).getD 0

/-- The 104-card two-deck pack the Deck constructor builds: for each suit,
for each rank, two copies, with ids counting up from 1. -/
def canonicalDeck : List Card :=
  ((suits.flatMap fun s => ranks.flatMap fun r => [(r, s), (r, s)])).enum.map
    (fun p => { id := p.1 + 1, rank := p.2.1, suit := p.2.2,
                value := valueOf p.2.1, order := orderOf p.2.1 })

/-- The comparator cards.sort((a, b) => a.order - b.order): sort ascending
by order.  Array.prototype.sort is stable, and stable insertion sort by
the order field models it. -/
def sortByOrder (l : List Card) : List Card :=
  l.insertionSort (fun a b => a.order ≤ b.order)

instance : IsTotal Card (fun a b => a.order ≤ b.order) :=
  ⟨fun a b => Nat.le_total a.order b.order⟩

instance : IsTrans Card (fun a b => a.order ≤ b.order) :=
  ⟨fun _ _ _ => Nat.le_trans⟩

/-- The loop of Meld.isSet: val starts at 0 (falsy), wildcards (order 2)
are skipped, the first other card fixes val, and any later non-wildcard
differing from val fails the set. -/
def isSetCheck : List Card → Nat → Bool
  | [], _ => true
  | c :: cs, val =>
    if c.order = 2 then isSetCheck cs val
    else if val = 0 then isSetCheck cs c.order
    else if val = c.order then isSetCheck cs val
    else false

/-- Meld.isSet: every non-wildcard card shares one order value. -/
def isSet (cards : List Card) : Bool := isSetCheck cards 0

/-- The while loop of Meld.isRun, acting on the sorted non-wildcard cards.
In the JavaScript source the loop walks the array with an index, splicing
one wildcard in front of the current card for every missing order value;
here each step of the recursion handles one non-wildcard card c and takes
the whole block of wildcards its gap needs in one go, which performs the
same sequence of insertions.  The accumulator acc holds the processed
prefix in reverse; ws holds the wildcards still available, first to be
popped in front.  The Bool is the return value of isRun and the list is
the final content of the mutated array. -/
def runScan (acc : List Card) : List Card → Nat → List Card → Bool × List Card
  | [], _, ws => (true, acc.reverse ++ ws.reverse)
  | c :: cs, val, ws =>
    if c.order = val then runScan (c :: acc) cs (val + 1) ws
    else if val < c.order ∧ c.order - val ≤ ws.length then
      runScan (c :: ((ws.take (c.order - val)).reverse ++ acc)) cs
        (c.order + 1) (ws.drop (c.order - val))
    else (false, acc.reverse ++ ws ++ c :: cs)

/-- The suit check of Meld.isRun: consecutive cards of the (sorted,
wildcard-free) array must agree in suit. -/
def sameSuitChain : List Card → Bool
  | [] => true
  | [_] => true
  | a :: b :: rest => if a.suit = b.suit then sameSuitChain (b :: rest) else false

/-- Meld.isRun with its in-place effect made explicit.  The source sorts
the array, splices the wildcards out (collecting them so that the first
one in sorted position is popped first), fails if two remaining cards
differ in suit, then walks the remainder filling every gap in the order
sequence with a wildcard; leftover wildcards are pushed at the end.  The
returned pair is (verdict, final content of the array passed in). -/
def isRunEffect (cards : List Card) : Bool × List Card :=
  let sorted := sortByOrder cards
  let ws := sorted.filter (fun c => c.order = 2)
  let nw := sorted.filter (fun c => c.order ≠ 2)
  if sameSuitChain nw = false then (false, nw)
  else
    match nw with
    | [] => (true, ws.reverse)
    | c :: cs => runScan [c] cs (c.order + 1) ws

/-- Meld.isRun verdict: the Boolean the source returns.  The Meld
constructor calls it on a copy of the card array, so only the verdict
matters there. -/
def isRun (cards : List Card) : Bool := (isRunEffect cards).1

/-- The type field of a meld: RUN and SET when exactly one check passes,
EITHER when both do.  The Meld constructor throws before this value is
formed when neither passes. -/
inductive MeldType where
  | SET : MeldType
  | RUN : MeldType
  | EITHER : MeldType
deriving DecidableEq, Repr

/-- The validity condition of the Meld constructor: the card group passes
isRun or isSet (each called on a copy of the array). -/
def meldValid (cards : List Card) : Bool := isRun cards || isSet cards

/-- The type the Meld constructor assigns; meaningful only when meldValid
holds (otherwise the constructor throws instead). -/
def meldTypeOf (cards : List Card) : MeldType :=
  if isRun cards then (if isSet cards then MeldType.EITHER else MeldType.RUN)
  else MeldType.SET

/-- A constructed meld: id, its card array, its type and the id of the
owning player (null for validity probes). -/
structure Meld where
  id : Nat
  cards : List Card
  type : MeldType
  playerID : Option String
deriving DecidableEq, Repr

/-- The Meld constructor: throws (none) when the group is neither a run
nor a set, otherwise records the cards as passed, the computed type and
the owning player id. -/
def mkMeld (id : Nat) (cards : List Card) (pid : Option String) : Option Meld :=
  if meldValid cards then
    some { id := id, cards := cards, type := meldTypeOf cards, playerID := pid }
  else none

/-- Meld.addCard: probe the group extended with the new card; on success
push the card and re-sort the meld in place, returning true; on failure
leave the meld alone and return false. -/
def meldAddCard (m : Meld) (card : Card) : Meld × Bool :=
  if meldValid (m.cards ++ [card]) then
    ({ m with cards := sortByOrder (m.cards ++ [card]) }, true)
  else (m, false)

/-- The splice(i, 1, newCard) step of Meld.swap and the hand update of
swapWithMeld: replace the first card carrying the given id, leaving the
list unchanged when no card carries it. -/
def replaceFirstById : List Card → Nat → Card → List Card
  | [], _, _ => []
  | c :: cs, cid, nc => if c.id = cid then nc :: cs else c :: replaceFirstById cs cid nc

/-- Meld.swap: build the probe group with playerCard in front of every
meld card whose id differs from meldCard, test it through the Meld
constructor, and on success replace meldCard by playerCard in place and
re-sort.  The source never checks that meldCard is a wildcard; the caller
swapWithMeld is what selects a wildcard.  Note the probe loop reads
meldCard.id, so the source throws when called with an undefined meldCard;
that cannot be expressed here because this function receives a real Card,
and the caller below models the throw instead. -/
def meldSwap (m : Meld) (meldCard playerCard : Card) : Meld × Bool :=
  let testMeld := playerCard :: m.cards.filter (fun c => c.id ≠ meldCard.id)
  if meldValid testMeld then
    ({ m with cards := sortByOrder (replaceFirstById m.cards meldCard.id playerCard) }, true)
  else (m, false)

/-- A player record: client id, socket id (null when disconnected),
name, buys remaining, points, and the hand. -/
structure Player where
  id : String
  socketId : Option String
  name : String
  buys : Nat
  points : Nat
  hand : List Card
deriving DecidableEq, Repr

/-- The Player constructor: 6 buys, 0 points, empty hand. -/
def newPlayer (id : String) (sid : Option String) (name : String) : Player :=
  { id := id, socketId := sid, name := name, buys := 6, points := 0, hand := [] }

/-- The Deck object: draw pile (front = next draw) and discard pile
(back = most recent discard). -/
structure Deck where
  deck : List Card
  discarded : List Card
deriving DecidableEq, Repr

/-- The MayI room object.  The players object of the source is a string
keyed map whose key order is insertion order; an association list models
it.  The source holds null in this.deck until the first deal; the empty
deck stands for that state here, and every theorem below works on dealt
states. -/
structure GameState where
  players : List (String × Player)
  connectedPlayerCount : Nat
  deck : Deck
  round : Nat
  turn : Nat
  turnOrder : List String
  melds : List Meld
deriving DecidableEq, Repr

/-- The MayI constructor. -/
def emptyGame : GameState :=
  { players := [], connectedPlayerCount := 0, deck := { deck := [], discarded := [] },
    round := 1, turn := 0, turnOrder := [], melds := [] }

/-- Reading this.players[p]: the first entry under that key, none when
the key is absent (undefined in the source). -/
def lookupPlayer (st : GameState) (p : String) : Option Player :=
  (st.players.find? (fun e => e.1 = p)).map (fun e => e.2)

/-- Mutating the player object stored under key p. -/
def updatePlayer (st : GameState) (p : String) (f : Player → Player) : GameState :=
  { st with players := st.players.map (fun e => if e.1 = p then (e.1, f e.2) else e) }

/-- MayI.addPlayer: ignore an id already present, otherwise append a new
player, extend turnOrder and count the connection. -/
def addPlayer (st : GameState) (id : String) (sid : String) (name : String) : GameState :=
  if (lookupPlayer st id).isSome then st
  else { st with players := st.players ++ [(id, newPlayer id (some sid) name)],
                 turnOrder := st.turnOrder ++ [id],
                 connectedPlayerCount := st.connectedPlayerCount + 1 }

/-- One round of the inner dealing loop of MayI.deal: each player, in
insertion order, pushes the front card of the draw pile into their hand.
With an empty pile the source would push undefined; that never happens
on the fixed 104-card pack with at most 9 players, and the model keeps
the hand unchanged in that case. -/
def dealPass : List (String × Player) → List Card → List (String × Player) × List Card
  | [], d => ([], d)
  | (k, pl) :: ps, [] => ((k, pl) :: ps, [])
  | (k, pl) :: ps, c :: d =>
    let r := dealPass ps d
    ((k, { pl with hand := pl.hand ++ [c] }) :: r.1, r.2)

/-- The outer dealing loop of MayI.deal: eleven passes. -/
def dealPasses : Nat → List (String × Player) → List Card → List (String × Player) × List Card
  | 0, ps, d => (ps, d)
  | n + 1, ps, d =>
    let r := dealPass ps d
    dealPasses n r.1 r.2

/-- MayI.deal: install a fresh shuffled two-deck pack (the shuffle is
external randomness, so the shuffled pack is a parameter), deal eleven
cards per player round-robin, then move one card from the draw pile to
the empty discard pile. -/
def dealOp (st : GameState) (shuffled : List Card) : GameState :=
  let r := dealPasses 11 st.players shuffled
  match r.2 with
  | [] => { st with players := r.1, deck := { deck := [], discarded := [] } }
  | c :: rest => { st with players := r.1, deck := { deck := rest, discarded := [c] } }

/-- One iteration of MayI.draw: push the front card of the draw pile into
the hand of player p.  On an empty pile the source pushes undefined; the
model leaves the state unchanged, and every theorem below draws from a
pile that is long enough. -/
def drawOne (st : GameState) (p : String) : GameState :=
  match st.deck.deck with
  | [] => st
  | c :: rest =>
    { updatePlayer st p (fun pl => { pl with hand := pl.hand ++ [c] }) with
      deck := { st.deck with deck := rest } }

/-- The qty iterations of MayI.draw. -/
def doDraws (st : GameState) (p : String) : Nat → GameState
  | 0 => st
  | n + 1 => doDraws (drawOne st p) p n

/-- MayI.draw: the source reads this.players[player].hand before anything
else, so a missing player id throws; none models that throw. -/
def drawOp (st : GameState) (p : String) (qty : Nat) : Option GameState :=
  match lookupPlayer st p with
  | none => none
  | some _ => some (doDraws st p qty)

/-- The card removal loop shared by MayI.discard, MayI.meld and
Player.removeCard: walk the hand with an index and splice out every card
whose id matches.  After splice(i, 1) the index still advances, so the
element right after a removed card is never examined; the recursion
reproduces that skip. -/
def discardRemove (cid : Nat) : List Card → List Card
  | [] => []
  | c :: cs =>
    if c.id = cid then
      match cs with
      | [] => []
      | d :: ds => d :: discardRemove cid ds
    else c :: discardRemove cid cs

/-- MayI.incrementTurn: wrap to 0 from the last seat, where the seat
count is the number of keys of this.players. -/
def nextTurn (st : GameState) : Nat :=
  if st.turn = st.players.length - 1 then 0 else st.turn + 1

/-- MayI.discard.  Out of turn the source returns undefined, modelled as
the Boolean false with no state change.  In turn it removes the card
from the hand by id (without ever checking the card is there), pushes
the argument card itself onto the discard pile, always increments the
turn (the source condition !hand.length !== 0 compares a Boolean with a
number and is therefore always true) and returns true.  A p whose key is
missing from players would throw, hence the Option. -/
def discardOp (st : GameState) (p : String) (card : Card) : Option (GameState × Bool) :=
  if st.turnOrder.get? st.turn ≠ some p then some (st, false)
  else
    match lookupPlayer st p with
    | none => none
    | some _ =>
      let st2 := updatePlayer st p (fun pl => { pl with hand := discardRemove card.id pl.hand })
      let st3 := { st2 with deck := { st2.deck with discarded := st2.deck.discarded ++ [card] } }
      some ({ st3 with turn := nextTurn st3 }, true)

/-- The buyOrder rotation of MayI.determineBuy: turnOrder from the
current turn index around the table. -/
def rotatedOrder (st : GameState) : List String :=
  st.turnOrder.drop st.turn ++ st.turnOrder.take st.turn

/-- The eligibility test inside the determineBuy loop: the walked player
appears in the candidate list and has buys remaining. -/
def eligibleBuyer (st : GameState) (cands : List String) (p : String) : Bool :=
  cands.contains p && 0 < ((lookupPlayer st p).map Player.buys).getD 0

/-- MayI.determineBuy: walk the rotation, over its whole length when the
discard pile holds exactly one card and over all but its last element
otherwise, and return the first eligible candidate; none models the
false the source returns when nobody qualifies. -/
def determineBuy (st : GameState) (cands : List String) : Option String :=
  let buyOrder := rotatedOrder st
  let len := if st.deck.discarded.length = 1 then buyOrder.length else buyOrder.length - 1
  (buyOrder.take len).find? (eligibleBuyer st cands)

/-- MayI.hasMeld: some active meld is owned by the player. -/
def hasMeld (st : GameState) (p : String) : Bool :=
  st.melds.any (fun m => m.playerID = some p)

/-- The per-round requirement table (the melds array of the source):
required group count and minimum group length, indexed by round - 1. -/
def roundReqs : List (Nat × Nat) := [(2, 3), (1, 4), (2, 4), (1, 5), (1, 6), (2, 5)]

/-- The removal loop of MayI.meld: for every card of every group, run the
id splice scan over the hand. -/
def removeCards (hand : List Card) : List Nat → List Card
  | [] => hand
  | cid :: rest => removeCards (discardRemove cid hand) rest

/-- The committed room of a successful MayI.meld: the melded card ids
are spliced out of the hand and the freshly constructed melds appended
to the room list, each carrying the next ids and the owner. -/
def meldCommit (st : GameState) (p : String) (pl : Player)
    (groups : List (List Card)) : GameState :=
  { updatePlayer st p (fun q =>
      { q with hand := removeCards q.hand (groups.flatten.map Card.id) }) with
    melds := st.melds ++ groups.enum.map (fun e =>
      { id := st.melds.length + e.1, cards := e.2,
        type := meldTypeOf e.2, playerID := some pl.id : Meld }) }

/-- The first meld shape gate of MayI.meld: the group count must equal
the required set count of the round row, every group must reach the
required length, and no group may be of type RUN. -/
def meldShapeCheck (groups : List (List Card)) (req : Nat × Nat)
    (commit : GameState) : Option GameState :=
  if groups.length ≠ req.1 then none
  else if groups.any (fun g =>
      decide (g.length < req.2) || decide (meldTypeOf g = MeldType.RUN)) then none
  else some commit

/-- MayI.meld.  The whole body sits in a try/catch returning false, so a
missing player key, an invalid group (Meld constructor throw) and a
round outside the table all come out as the same false, modelled none.
Otherwise: reject when the groups would empty the hand, apply the round
shape table when the player has no meld down yet, and commit by removing
the melded ids from the hand and appending the new melds (meldCommit
above). -/
def meldOp (st : GameState) (p : String) (groups : List (List Card)) : Option GameState :=
  match lookupPlayer st p with
  | none => none
  | some pl =>
    if groups.all (fun g => meldValid g) = false then none
    else if (groups.map List.length).sum = pl.hand.length then none
    else if hasMeld st p then some (meldCommit st p pl groups)
    else
      match roundReqs.get? (st.round - 1) with
      | none => none
      | some req => meldShapeCheck groups req (meldCommit st p pl groups)

/-- MayI.swapWithMeld.  Without a meld of their own the player is turned
away with false.  The meld is then fetched by id and its wildcard looked
up; when either lookup comes back undefined the subsequent property read
throws, modelled none.  On a successful Meld.swap the meld is already
mutated in place; the player hand swaps playerCard for the wildcard. -/
def swapWithMeldOp (st : GameState) (p : String) (playerCard : Card) (meldID : Nat) :
    Option (GameState × Bool) :=
  if hasMeld st p = false then some (st, false)
  else
    match st.melds.find? (fun m => m.id = meldID) with
    | none => none
    | some m =>
      match m.cards.find? (fun c => c.order = 2) with
      | none => none
      | some meldCard =>
        let r := meldSwap m meldCard playerCard
        if r.2 = false then some (st, false)
        else
          let st2 := { st with melds := st.melds.map (fun mm => if mm.id = meldID then r.1 else mm) }
          some (updatePlayer st2 p (fun q =>
            { q with hand := replaceFirstById q.hand playerCard.id meldCard }), true)

/-- MayI.addToMeld.  The source calls meld.addCard first, mutating the
meld whenever the extended group is valid, and only afterwards checks
that the hand keeps at least one card; on that late rejection the meld
keeps the added card while false is returned and the hand is left alone.
A missing meld id or player key throws, modelled none. -/
def addToMeldOp (st : GameState) (p : String) (card : Card) (meldID : Nat) :
    Option (GameState × Bool) :=
  match st.melds.find? (fun m => m.id = meldID) with
  | none => none
  | some m =>
    match lookupPlayer st p with
    | none => none
    | some pl =>
      let r := meldAddCard m card
      let st2 := { st with melds := st.melds.map (fun mm => if mm.id = meldID then r.1 else mm) }
      if 1 < pl.hand.length ∧ r.2 = true then
        some (updatePlayer st2 p (fun q => { q with hand := discardRemove card.id q.hand }), true)
      else some (st2, false)

/-! Specification-side definitions, written from the wording of the
specification rather than from the source, for comparison with the
translated code above. -/

/-- The walk prefix the specification sentence describes, with the skip
condition as frozen in the specification: the player who most recently
discarded (the last seat of the rotation, since discarding advances the
turn) is skipped exactly when the discard pile holds exactly one card. -/
def determineBuyClaim (st : GameState) (cands : List String) : Option String :=
  let walked := if st.deck.discarded.length = 1 then (rotatedOrder st).dropLast
                else rotatedOrder st
  walked.find? (eligibleBuyer st cands)

/-- The walked prefix of the rotation with the skip condition the code
actually implements: the last seat of the rotation is skipped exactly
when the discard pile does not hold exactly one card. -/
def walkedBuyers (st : GameState) : List String :=
  if st.deck.discarded.length = 1 then rotatedOrder st
  else (rotatedOrder st).dropLast

/-- The amended specification of determineBuy: first eligible candidate
of the walked prefix. -/
def determineBuySpecFixed (st : GameState) (cands : List String) : Option String :=
  (walkedBuyers st).find? (eligibleBuyer st cands)

/-- Sum of the internal gaps of a sorted order sequence: a run needs one
wildcard for every missing value strictly between two consecutive
members. -/
def gapSum : List Nat → Nat
  | a :: b :: rest => (b - a - 1) + gapSum (b :: rest)
  | _ => 0

/-- The non-wildcard cards of a group, in sorted position (the source
sorts the whole array and then splices the wildcards out, so the
remainder is exactly the sorted array filtered of wildcards). -/
def nonWildSorted (cards : List Card) : List Card :=
  (sortByOrder cards).filter (fun c => c.order ≠ 2)

/-- The wildcards a group supplies. -/
def wildCount (cards : List Card) : Nat := (cards.filter (fun c => c.order = 2)).length

/-- The specification of isRun: after removing wildcards all remaining
cards share one suit, the sorted remainder is strictly ascending in
order, and the wildcards on hand cover every internal gap; leftover
wildcards beyond the gaps are accepted. -/
def isRunSpec (cards : List Card) : Prop :=
  (∀ a ∈ nonWildSorted cards, ∀ b ∈ nonWildSorted cards, a.suit = b.suit) ∧
  List.Chain' (fun a b => a.order < b.order) (nonWildSorted cards) ∧
  gapSum ((nonWildSorted cards).map Card.order) ≤ wildCount cards

/-- The wildcards needed to climb from the value val through a card list:
none when a card sits below the value already reached (the loop of the
source would burn every wildcard and fail), otherwise the total count of
skipped order values. -/
def runGaps : Nat → List Card → Option Nat
  | _, [] => some 0
  | val, c :: cs =>
    if c.order < val then none
    else (runGaps (c.order + 1) cs).map (fun k => k + (c.order - val))

/-- The round shape requirement exactly as the specification spells it
out, round by round, together with the no-RUN rule for a first meld. -/
def roundShapeClaim (round : Nat) (groups : List (List Card)) : Prop :=
  (round = 1 → groups.length = 2 ∧ ∀ g ∈ groups, 3 ≤ g.length) ∧
  (round = 2 → groups.length = 1 ∧ ∀ g ∈ groups, 4 ≤ g.length) ∧
  (round = 3 → groups.length = 2 ∧ ∀ g ∈ groups, 4 ≤ g.length) ∧
  (round = 4 → groups.length = 1 ∧ ∀ g ∈ groups, 5 ≤ g.length) ∧
  (round = 5 → groups.length = 1 ∧ ∀ g ∈ groups, 6 ≤ g.length) ∧
  (round = 6 → groups.length = 2 ∧ ∀ g ∈ groups, 5 ≤ g.length) ∧
  (∀ g ∈ groups, meldTypeOf g ≠ MeldType.RUN)

instance (r : Nat) (groups : List (List Card)) : Decidable (roundShapeClaim r groups) := by
  unfold roundShapeClaim
  infer_instance

/-- Every card id present in the room, over the draw pile, the discard
pile, every hand and every meld. -/
def allCardIds (st : GameState) : List Nat :=
  st.deck.deck.map Card.id ++ st.deck.discarded.map Card.id ++
  (st.players.map (fun e => e.2.hand.map Card.id)).flatten ++
  (st.melds.map (fun m => m.cards.map Card.id)).flatten

/-! Concrete rooms and cards used by the witnesses, the counterexamples
and the failing traces below. -/

/-- The card of the canonical pack carrying a given id. -/
def cardById (cid : Nat) : Card :=
  (canonicalDeck.find? (fun c => c.id = cid)).getD default

/-- A three seat room right after the players joined. -/
def g0 : GameState :=
  addPlayer (addPlayer (addPlayer emptyGame "A" "sA" "a") "B" "sB" "b") "C" "sC" "c"

/-- The same room freshly dealt, with the identity shuffle. -/
def g1 : GameState := dealOp g0 canonicalDeck

/-- Player A draws 24 cards (MayI.draw enforces no turn ownership). -/
def g2 : GameState := (drawOp g1 "A" 24).getD g1

/-- Player A lays the round 1 requirement: two sets of three (aces and
fives). -/
def g3 : GameState :=
  (meldOp g2 "A" [[cardById 1, cardById 28, cardById 53],
                  [cardById 10, cardById 35, cardById 36]]).getD g2

/-- Having melded, player A sheds two diamond runs of eight. -/
def g4 : GameState :=
  (meldOp g3 "A" [[cardById 37, cardById 39, cardById 41, cardById 43,
                   cardById 45, cardById 47, cardById 49, cardById 51],
                  [cardById 38, cardById 40, cardById 42, cardById 44,
                   cardById 46, cardById 48, cardById 50, cardById 52]]).getD g3

/-- A set of threes. -/
def g5 : GameState := (meldOp g4 "A" [[cardById 31, cardById 57, cardById 58]]).getD g4

/-- A group of three wildcards (valid as a set of only wildcards). -/
def g6 : GameState := (meldOp g5 "A" [[cardById 4, cardById 55, cardById 56]]).getD g5

/-- A two card run (no minimum size is enforced after the first meld). -/
def g7 : GameState := (meldOp g6 "A" [[cardById 13, cardById 16]]).getD g6

/-- Another two card run. -/
def g8 : GameState := (meldOp g7 "A" [[cardById 19, cardById 22]]).getD g7

/-- Two single card groups, leaving player A with one card, the ace of
hearts with id 54. -/
def g9 : GameState := (meldOp g8 "A" [[cardById 7], [cardById 25]]).getD g8

/-- Player A drops their last card onto meld 0: addCard mutates the meld,
then the hand size check rejects, leaving the card both in the meld and
in the hand. -/
def gBad : GameState := ((addToMeldOp g9 "A" (cardById 54) 0).getD (g9, false)).1

/-- A two seat room whose discard pile holds exactly one card; seat B,
last of the rotation from the current turn, is the seat the
specification calls the most recent discarder. -/
def stC1 : GameState :=
  { emptyGame with
    players := [("A", newPlayer "A" (some "sA") "a"), ("B", newPlayer "B" (some "sB") "b")],
    turnOrder := ["A", "B"],
    turn := 0,
    deck := { deck := [], discarded := [cardById 34] } }

/-- A room where player A holds a single card that validly extends the
only meld. -/
def stC3a : GameState :=
  { emptyGame with
    players := [("A", { newPlayer "A" (some "sA") "a" with hand := [cardById 54] })],
    turnOrder := ["A"],
    melds := [{ id := 0, cards := [cardById 1, cardById 28, cardById 53],
                type := MeldType.SET, playerID := some "A" }] }

/-- A room where meld 0 (a clean club run of player B) holds no wildcard
while player A, having melded, attempts to swap into it. -/
def stC3b : GameState :=
  { emptyGame with
    players := [("A", { newPlayer "A" (some "sA") "a" with hand := [cardById 11] }),
                ("B", newPlayer "B" (some "sB") "b")],
    turnOrder := ["A", "B"],
    melds := [{ id := 0, cards := [cardById 5, cardById 7, cardById 9],
                type := MeldType.RUN, playerID := some "B" },
              { id := 1, cards := [cardById 1, cardById 28, cardById 53],
                type := MeldType.SET, playerID := some "A" }] }

/-- The king of clubs, a heart wildcard and the nine of diamonds, in that
order: isRun sorts this group and drops the wildcard on the failed suit
check. -/
def exC5 : List Card := [cardById 25, cardById 55, cardById 43]

/-- A clean club run meld used by the swap counterexample. -/
def m7 : Meld :=
  { id := 0, cards := [cardById 5, cardById 7, cardById 9],
    type := MeldType.RUN, playerID := none }

/-- A meld with a wildcard, for the swap witness. -/
def m7w : Meld :=
  { id := 0, cards := [cardById 55, cardById 7, cardById 9],
    type := MeldType.RUN, playerID := none }

/-- A one seat room holding two clean triples and one spare card, for
the meld witness. -/
def stC2 : GameState :=
  { emptyGame with
    players := [("A", { newPlayer "A" (some "sA") "a" with
      hand := [cardById 1, cardById 28, cardById 53, cardById 25,
               cardById 51, cardById 103, cardById 11] })],
    turnOrder := ["A"] }

/-- The two triples of the meld witness: three aces and three kings. -/
def gsC2 : List (List Card) :=
  [[cardById 1, cardById 28, cardById 53], [cardById 25, cardById 51, cardById 103]]

/-- A one seat room for the discard witness: the hand holds one card and
the discarded card object is foreign to it. -/
def stC10 : GameState :=
  { emptyGame with
    players := [("A", { newPlayer "A" (some "sA") "a" with hand := [cardById 1] })],
    turnOrder := ["A"],
    turn := 0,
    deck := { deck := [cardById 2], discarded := [cardById 34] } }

set_option maxRecDepth 10000

/-! Claim theorems. -/

/-- Claim C6, failing evaluation: the Meld constructor never checks the
group size, so a single card group and even the empty group construct
successfully, while the claim (and the comments of isSet and isRun in
the source, which both speak of groups of 3 or more cards) require
construction to fail below three cards. -/
theorem mkMeld_accepts_short_groups :
    ([cardById 13] : List Card).length < 3 ∧
    (mkMeld 1 [cardById 13] none).isSome = true ∧
    (mkMeld 2 [] none).isSome = true := by decide

/-- Claim C3, failing evaluation.  First conjunct pair: in stC3a player A
holds exactly one card which validly extends meld 0; addToMeld answers
false, yet the meld has grown from 3 to 4 cards, so the rejection left
the room partially mutated.  Last conjunct: in stC3b meld 0 holds no
wildcard, and swapWithMeld reads a property of the undefined lookup
result, a thrown TypeError rather than a Boolean rejection. -/
theorem rejection_mutates_or_throws :
    ((addToMeldOp stC3a "A" (cardById 54) 0).map
        (fun r => (r.2, r.1.melds.map (fun m => m.cards.length))) = some (false, [4])) ∧
    stC3a.melds.map (fun m => m.cards.length) = [3] ∧
    swapWithMeldOp stC3b "A" (cardById 11) 0 = none := by decide

/-- Claim C8, failing evaluation: the freshly dealt three seat room g1
carries exactly the 104 created card ids, but after the legal trace
g2, ..., g9 (draws and melds) the addToMeld of the last card of player A
leaves that card both in meld 0 and in the hand: id 54 occurs twice and
the room no longer carries the dealt multiset. -/
theorem card_conservation_broken_by_addToMeld :
    Multiset.ofList (allCardIds g1) = Multiset.ofList (canonicalDeck.map Card.id) ∧
    (allCardIds gBad).count 54 = 2 ∧
    Multiset.ofList (allCardIds gBad) ≠ Multiset.ofList (canonicalDeck.map Card.id) := by
  decide

/-- Claim C1, counterexample: in stC1 the discard pile holds exactly one
card and seat B, the last seat of the walk (the seat the claim calls the
most recent discarder), is the only candidate.  The claim as frozen
requires B to be skipped, hence no buyer; the code walks the full
rotation in this case and sells the card to B. -/
theorem determineBuy_skip_inverted_cex :
    stC1.deck.discarded.length = 1 ∧
    determineBuy stC1 ["B"] = some "B" ∧
    determineBuyClaim stC1 ["B"] = none := by decide

/-- Claim C5, counterexample: isRun mutates the array it receives.  On
exC5 (king of clubs, heart wildcard, nine of diamonds) it sorts the
array, splices the wildcard out and fails the suit check, leaving the
array reordered and one card shorter than it was before the call. -/
theorem isRun_mutates_input_cex :
    (isRunEffect exC5).2 ≠ exC5 ∧ (isRunEffect exC5).2.length ≠ exC5.length := by decide

/-- Claim C7, counterexample: Meld.swap never verifies that the outgoing
card is a wildcard.  Swapping the non wildcard three of clubs out of the
club run m7 for the six of clubs is accepted and rewrites the meld,
while the claim requires every non wildcard swap to be rejected with the
meld unchanged. -/
theorem meldSwap_accepts_non_wildcard_cex :
    (cardById 5).order ≠ 2 ∧ cardById 5 ∈ m7.cards ∧
    (meldSwap m7 (cardById 5) (cardById 11)).2 = true ∧
    (meldSwap m7 (cardById 5) (cardById 11)).1.cards ≠ m7.cards := by decide

/-- The prefix determineBuy walks is exactly the walkedBuyers list. -/
theorem determineBuy_take_eq (st : GameState) :
    (rotatedOrder st).take
      (if st.deck.discarded.length = 1 then (rotatedOrder st).length
       else (rotatedOrder st).length - 1) = walkedBuyers st := by
  by_cases h : st.deck.discarded.length = 1 <;>
    simp [walkedBuyers, h, List.take_length, List.dropLast_eq_take]

/-- Claim C1 (amended): determineBuy walks turnOrder from the current
turn index around the table and returns the first walked player that is
a candidate with buys remaining, none when no walked candidate is
eligible; the last seat of the walk, the seat of the most recent
discarder, is skipped exactly when the discard pile does NOT hold
exactly one card (with exactly one card the pile top is the opening
discard of the deal, which no player discarded, so every seat may buy). -/
theorem determineBuy_walk_characterization (st : GameState) (cands : List String) :
    determineBuy st cands = determineBuySpecFixed st cands ∧
    (determineBuy st cands = none ↔
      ∀ q ∈ walkedBuyers st, ¬ eligibleBuyer st cands q = true) ∧
    (∀ q, determineBuy st cands = some q →
      q ∈ walkedBuyers st ∧ eligibleBuyer st cands q = true) := by
  have hd : determineBuy st cands = (walkedBuyers st).find? (eligibleBuyer st cands) := by
    rw [determineBuy, ← determineBuy_take_eq st]
  refine ⟨hd.trans rfl, ?_, ?_⟩
  · rw [hd]
    exact List.find?_eq_none
  · intro q hq
    rw [hd] at hq
    exact ⟨List.mem_of_find?_eq_some hq, List.find?_some hq⟩

/-- The splice scan leaves a hand alone when no card carries the id. -/
theorem discardRemove_of_not_mem (cid : Nat) :
    ∀ l : List Card, (∀ c ∈ l, c.id ≠ cid) → discardRemove cid l = l := by
  intro l
  induction l with
  | nil => intro _; rfl
  | cons c cs ih =>
    intro h
    have hc : ¬ c.id = cid := h c (List.mem_cons_self c cs)
    rw [discardRemove.eq_def]
    simp only [if_neg hc]
    rw [ih (fun d hd => h d (List.mem_cons_of_mem c hd))]

/-- Rewriting the entry under a key with a function that fixes its value
is the identity on an association list with distinct keys. -/
theorem update_entries_id (p : String) (f : Player → Player) :
    ∀ l : List (String × Player), (l.map Prod.fst).Nodup →
      ∀ pl, (l.find? (fun e => e.1 = p)).map (fun e => e.2) = some pl → f pl = pl →
      l.map (fun e => if e.1 = p then (e.1, f e.2) else e) = l := by
  intro l
  induction l with
  | nil => intro _ pl hpl; simp at hpl
  | cons e rest ih =>
    intro hnd pl hpl hf
    simp only [List.map_cons, List.nodup_cons] at hnd
    by_cases he : e.1 = p
    · have hfind : ((e :: rest).find? (fun e => e.1 = p)) = some e :=
        List.find?_cons_of_pos rest (by simp [he])
      rw [hfind] at hpl
      have hept : pl = e.2 := by simpa using hpl.symm
      subst hept
      simp only [List.map_cons, if_pos he, hf]
      have htail : rest.map (fun e2 => if e2.1 = p then (e2.1, f e2.2) else e2) = rest := by
        have hnom : ∀ e2 ∈ rest, ¬ e2.1 = p := by
          intro e2 h2 hc
          exact hnd.1 (he ▸ hc ▸ List.mem_map_of_mem Prod.fst h2)
        calc rest.map (fun e2 => if e2.1 = p then (e2.1, f e2.2) else e2)
            = rest.map id := List.map_congr_left (fun a ha => by simp [if_neg (hnom a ha)])
          _ = rest := List.map_id rest
      rw [htail]
    · have hfind : ((e :: rest).find? (fun e => e.1 = p)) = rest.find? (fun e => e.1 = p) :=
        List.find?_cons_of_neg rest (by simp [he])
      rw [hfind] at hpl
      simp only [List.map_cons, if_neg he]
      rw [ih hnd.2 pl hpl hf]

/-- updatePlayer with a function fixing the stored player is the
identity on the room. -/
theorem updatePlayer_eq_self (st : GameState) (p : String) (f : Player → Player) (pl : Player)
    (hk : (st.players.map Prod.fst).Nodup) (hp : lookupPlayer st p = some pl)
    (hf : f pl = pl) : updatePlayer st p f = st := by
  show { st with players := _ } = st
  rw [update_entries_id p f st.players hk pl hp hf]

/-- Claim C10: discard of a card object foreign to the hand of the
acting player.  The source never checks membership: the removal scan
finds nothing, the foreign card object is pushed onto the discard pile
anyway, the turn advances, and true is returned. -/
theorem discard_ignores_hand_membership (st : GameState) (p : String) (card : Card) (pl : Player)
    (hturn : st.turnOrder.get? st.turn = some p)
    (hk : (st.players.map Prod.fst).Nodup)
    (hp : lookupPlayer st p = some pl)
    (habsent : ∀ c ∈ pl.hand, c.id ≠ card.id) :
    discardOp st p card =
      some ({ st with
              deck := { st.deck with discarded := st.deck.discarded ++ [card] },
              turn := nextTurn st }, true) := by
  have hupd : updatePlayer st p
      (fun q => { q with hand := discardRemove card.id q.hand }) = st := by
    refine updatePlayer_eq_self st p _ pl hk hp ?_
    show { pl with hand := discardRemove card.id pl.hand } = pl
    rw [discardRemove_of_not_mem card.id pl.hand habsent]
  unfold discardOp
  rw [hturn, hp]
  simp only [ne_eq, not_true_eq_false, if_false, hupd]
  rfl

/-- Claim C10, witness: the one seat room stC10 whose hand holds only
the card with id 1; discarding the foreign card with id 2 succeeds,
pushes it onto the pile and advances the turn. -/
theorem discard_ignores_hand_membership_witness :
    stC10.turnOrder.get? stC10.turn = some "A" ∧
    (∀ c ∈ ({ newPlayer "A" (some "sA") "a" with hand := [cardById 1] } : Player).hand,
        c.id ≠ (cardById 2).id) ∧
    discardOp stC10 "A" (cardById 2) =
      some ({ stC10 with
              deck := { stC10.deck with discarded := stC10.deck.discarded ++ [cardById 2] },
              turn := nextTurn stC10 }, true) :=
  ⟨by decide, by decide,
    discard_ignores_hand_membership stC10 "A" (cardById 2)
      { newPlayer "A" (some "sA") "a" with hand := [cardById 1] }
      (by decide) (by decide) (by decide) (by decide)⟩

/-- The gap walk succeeds exactly when the wildcards cover the counted
gaps. -/
theorem runScan_true_iff :
    ∀ (cs : List Card) (val : Nat) (ws acc : List Card),
      (runScan acc cs val ws).1 = true ↔
        ∃ k, runGaps val cs = some k ∧ k ≤ ws.length := by
  intro cs
  induction cs with
  | nil =>
    intro val ws acc
    simp [runScan, runGaps]
  | cons c cs2 ih =>
    intro val ws acc
    by_cases h1 : c.order = val
    · have hlt : ¬ c.order < val := by omega
      rw [runScan, if_pos h1, runGaps, if_neg hlt, ih]
      constructor
      · rintro ⟨k, hk, hkw⟩
        exact ⟨k + (c.order - val), by rw [h1, hk]; rfl, by omega⟩
      · rintro ⟨k, hk, hkw⟩
        rcases Option.map_eq_some'.mp hk with ⟨k0, hk0, hke⟩
        exact ⟨k0, by rw [h1] at hk0; exact hk0, by omega⟩
    · by_cases h2 : val < c.order ∧ c.order - val ≤ ws.length
      · have hlt : ¬ c.order < val := by omega
        rw [runScan, if_neg h1, if_pos h2, runGaps, if_neg hlt, ih]
        constructor
        · rintro ⟨k, hk, hkw⟩
          rw [List.length_drop] at hkw
          exact ⟨k + (c.order - val), by rw [hk]; rfl, by omega⟩
        · rintro ⟨k, hk, hkw⟩
          rcases Option.map_eq_some'.mp hk with ⟨k0, hk0, hke⟩
          refine ⟨k0, hk0, ?_⟩
          rw [List.length_drop]
          omega
      · rw [runScan, if_neg h1, if_neg h2]
        simp only [Bool.false_eq_true, false_iff, not_exists, not_and]
        intro k hk
        by_cases hlt : c.order < val
        · rw [runGaps, if_pos hlt] at hk
          exact absurd hk (by simp)
        · rw [runGaps, if_neg hlt] at hk
          rcases Option.map_eq_some'.mp hk with ⟨k0, _, hke⟩
          intro hkw
          omega

/-- The gap count of the walk equals the gap sum of the order sequence,
and the walk is possible exactly when the sequence climbs strictly. -/
theorem runGaps_eq :
    ∀ (cs : List Card) (a : Nat),
      runGaps (a + 1) cs =
        if List.Chain' (· < ·) (a :: cs.map Card.order) then
          some (gapSum (a :: cs.map Card.order))
        else none := by
  intro cs
  induction cs with
  | nil => intro a; simp [runGaps, gapSum]
  | cons c cs2 ih =>
    intro a
    by_cases hac : a < c.order
    · have hlt : ¬ c.order < a + 1 := by omega
      rw [runGaps, if_neg hlt, ih c.order]
      by_cases hch : List.Chain' (· < ·) (c.order :: cs2.map Card.order)
      · rw [if_pos hch, if_pos]
        · simp only [Option.map_some']
          congr 1
          show gapSum (c.order :: cs2.map Card.order) + (c.order - (a + 1)) =
            gapSum (a :: c.order :: cs2.map Card.order)
          rw [gapSum]
          omega
        · rw [List.map_cons, List.chain'_cons]
          exact ⟨hac, hch⟩
      · rw [if_neg hch, if_neg]
        · rfl
        · rw [List.map_cons, List.chain'_cons]
          exact fun h => hch h.2
    · have hlt : c.order < a + 1 := by omega
      rw [runGaps, if_pos hlt, if_neg]
      rw [List.map_cons, List.chain'_cons]
      exact fun h => hac h.1

/-- The adjacent suit check equals the all pairs suit condition. -/
theorem sameSuitChain_iff :
    ∀ l : List Card, sameSuitChain l = true ↔ ∀ a ∈ l, ∀ b ∈ l, a.suit = b.suit := by
  intro l
  induction l with
  | nil => simp [sameSuitChain]
  | cons a rest ih =>
    cases rest with
    | nil => simp [sameSuitChain]
    | cons b rest2 =>
      constructor
      · intro h x hx y hy
        have hab : a.suit = b.suit := by
          by_contra hc
          rw [sameSuitChain, if_neg hc] at h
          exact Bool.false_ne_true h
        rw [sameSuitChain, if_pos hab] at h
        have hrest := ih.mp h
        have hall : ∀ x ∈ a :: b :: rest2, x.suit = b.suit := by
          intro x hx
          rcases List.mem_cons.mp hx with hxa | hxr
          · rw [hxa]; exact hab
          · exact hrest x hxr b (List.mem_cons_self b rest2)
        rw [hall x hx, hall y hy]
      · intro h
        have hab : a.suit = b.suit :=
          h a (List.mem_cons_self a (b :: rest2)) b
            (List.mem_cons_of_mem a (List.mem_cons_self b rest2))
        rw [sameSuitChain, if_pos hab]
        exact ih.mpr (fun x hx y hy =>
          h x (List.mem_cons_of_mem a hx) y (List.mem_cons_of_mem a hy))

/-- The wildcards spliced out of the sorted array count the wildcards of
the group. -/
theorem sorted_wild_length (cards : List Card) :
    ((sortByOrder cards).filter (fun c => c.order = 2)).length = wildCount cards := by
  exact ((List.perm_insertionSort _ cards).filter _).length_eq

/-- The filtered sorted array folded back into its name. -/
theorem nonWildSorted_def (cards : List Card) :
    (sortByOrder cards).filter (fun c => c.order ≠ 2) = nonWildSorted cards := rfl

/-- The characterization of isRun: true exactly when the non wildcard
cards share one suit, their sorted order values climb strictly, and the
wildcards cover every internal gap. -/
theorem isRun_characterization (cards : List Card) : isRun cards = true ↔ isRunSpec cards := by
  rw [isRun, isRunEffect]
  simp only [nonWildSorted_def]
  by_cases hsuit : sameSuitChain (nonWildSorted cards) = false
  · rw [isRunSpec]
    rw [if_pos hsuit]
    simp only [Bool.false_eq_true, false_iff, not_and]
    intro hpairs
    have : sameSuitChain (nonWildSorted cards) = true := (sameSuitChain_iff _).mpr hpairs
    rw [this] at hsuit
    exact absurd hsuit (by simp)
  · have hsuit2 : sameSuitChain (nonWildSorted cards) = true := by
      rcases Bool.eq_false_or_eq_true (sameSuitChain (nonWildSorted cards)) with h | h
      · exact h
      · exact absurd h hsuit
    rw [if_neg hsuit]
    have hpairs := (sameSuitChain_iff _).mp hsuit2
    match hnw : nonWildSorted cards with
    | [] =>
      simp only [true_iff]
      refine ⟨hpairs, ?_, ?_⟩
      · rw [hnw]; exact List.chain'_nil
      · rw [hnw]; simp [gapSum]
    | c :: cs =>
      rw [runScan_true_iff, isRunSpec, hnw]
      rw [runGaps_eq cs c.order]
      constructor
      · rintro ⟨k, hk, hkw⟩
        by_cases hch : List.Chain' (· < ·) (c.order :: cs.map Card.order)
        · rw [if_pos hch] at hk
          refine ⟨by rw [hnw] at hpairs; exact hpairs, ?_, ?_⟩
          · exact (List.chain'_map Card.order).mp (by rw [List.map_cons]; exact hch)
          · rw [List.map_cons]
            rw [sorted_wild_length] at hkw
            rw [Option.some.inj hk]
            exact hkw
        · rw [if_neg hch] at hk
          exact absurd hk (by simp)
      · rintro ⟨_, hch, hgap⟩
        have hch2 : List.Chain' (· < ·) (c.order :: cs.map Card.order) := by
          rw [← List.map_cons]
          exact (List.chain'_map Card.order).mpr hch
        rw [if_pos hch2]
        refine ⟨gapSum (c.order :: cs.map Card.order), rfl, ?_⟩
        rw [sorted_wild_length]
        rw [List.map_cons] at hgap
        exact hgap

/-- Claim C4: isRun returns true exactly when, after removing wildcards,
all remaining cards share one suit and, sorted by order, the available
wildcards fill every internal gap so the sequence is strictly
consecutive ascending, leftover wildcards being accepted.  In
particular a gapless same suit group is accepted and a single suit group
missing one internal value with no wildcards is rejected. -/
theorem isRun_matches_spec : ∀ cards : List Card, isRun cards = true ↔ isRunSpec cards :=
  isRun_characterization

/-- When the gap walk succeeds, the final array holds the processed
prefix, the walked cards and the wildcards, in some order. -/
theorem runScan_perm :
    ∀ (cs : List Card) (val : Nat) (ws acc : List Card),
      (runScan acc cs val ws).1 = true →
      ((runScan acc cs val ws).2).Perm (acc.reverse ++ (cs ++ ws)) := by
  intro cs
  induction cs with
  | nil =>
    intro val ws acc _
    simp only [runScan, List.nil_append]
    exact List.Perm.append_left acc.reverse (List.reverse_perm ws)
  | cons c cs2 ih =>
    intro val ws acc h
    by_cases h1 : c.order = val
    · rw [runScan, if_pos h1] at h ⊢
      refine (ih (val + 1) ws (c :: acc) h).trans ?_
      rw [List.reverse_cons, List.append_assoc]
      exact List.Perm.refl _
    · by_cases h2 : val < c.order ∧ c.order - val ≤ ws.length
      · rw [runScan, if_neg h1, if_pos h2] at h ⊢
        refine (ih (c.order + 1) (ws.drop (c.order - val))
          (c :: ((ws.take (c.order - val)).reverse ++ acc)) h).trans ?_
        rw [List.reverse_cons, List.reverse_append, List.reverse_reverse]
        rw [List.perm_iff_count]
        intro a
        have hcount : List.count a (ws.take (c.order - val)) +
            List.count a (ws.drop (c.order - val)) = List.count a ws := by
          rw [← List.count_append, List.take_append_drop]
        simp only [List.count_append, List.count_cons, List.count_nil]
        omega
      · rw [runScan, if_neg h1, if_neg h2] at h
        exact absurd h (by simp)

/-- Claim C5 (amended): isSet reads its argument without writing it, and
isRun does mutate the array it is handed (see the counterexample), yet
whenever isRun answers true the mutated array still holds exactly the
original cards, merely reordered; the Meld constructor passes copies, so
melds never observe the mutation. -/
theorem isRun_success_preserves_cards (cards : List Card)
    (h : (isRunEffect cards).1 = true) : ((isRunEffect cards).2).Perm cards := by
  have hsortp : (sortByOrder cards).Perm cards := List.perm_insertionSort _ cards
  rw [isRunEffect] at h ⊢
  simp only [nonWildSorted_def] at h ⊢
  by_cases hsuit : sameSuitChain (nonWildSorted cards) = false
  · rw [if_pos hsuit] at h
    exact absurd h (by simp)
  · rw [if_neg hsuit] at h ⊢
    have hpart : ((nonWildSorted cards) ++
        (sortByOrder cards).filter (fun c => c.order = 2)).Perm cards := by
      refine List.Perm.trans ?_ hsortp
      have hfa := List.filter_append_perm (fun c => decide (c.order ≠ 2)) (sortByOrder cards)
      have hco : (sortByOrder cards).filter (fun c => !decide (c.order ≠ 2)) =
          (sortByOrder cards).filter (fun c => decide (c.order = 2)) := by
        refine List.filter_congr ?_
        intro a _
        by_cases ha : a.order = 2 <;> simp [ha]
      rw [hco] at hfa
      exact hfa
    match hnw : nonWildSorted cards with
    | [] =>
      have hall : ∀ a ∈ sortByOrder cards, a.order = 2 := by
        have := List.filter_eq_nil_iff.mp (nonWildSorted_def cards ▸ hnw)
        intro a ha
        have h2 := this a ha
        by_cases h3 : a.order = 2
        · exact h3
        · exact absurd (by simp [h3]) h2
      have hws : (sortByOrder cards).filter (fun c => c.order = 2) = sortByOrder cards :=
        List.filter_eq_self.mpr (fun a ha => by simp [hall a ha])
      rw [hws]
      exact (List.reverse_perm _).trans hsortp
    | c :: cs =>
      rw [hnw] at hpart
      refine (runScan_perm cs (c.order + 1)
        ((sortByOrder cards).filter (fun c => c.order = 2)) [c] ?_).trans ?_
      · rw [hnw] at h
        exact h
      · simpa using hpart

/-- Claim C5, witness: on a shuffled club run isRun succeeds and the
final array is a permutation of the input. -/
theorem isRun_success_preserves_cards_witness :
    (isRunEffect [cardById 9, cardById 5, cardById 7]).1 = true ∧
    ((isRunEffect [cardById 9, cardById 5, cardById 7]).2).Perm
      [cardById 9, cardById 5, cardById 7] :=
  ⟨by decide, isRun_success_preserves_cards [cardById 9, cardById 5, cardById 7] (by decide)⟩

/-- The loop of isSet with a fixed nonzero target accepts exactly the
hands whose non wildcards all carry that order. -/
theorem isSetCheck_iff :
    ∀ (l : List Card) (v : Nat), v ≠ 0 →
      (isSetCheck l v = true ↔ ∀ a ∈ l, a.order ≠ 2 → a.order = v) := by
  intro l
  induction l with
  | nil => intro v _; simp [isSetCheck]
  | cons c cs ih =>
    intro v hv
    by_cases h2 : c.order = 2
    · rw [isSetCheck, if_pos h2, ih v hv]
      constructor
      · intro h a ha ha2
        rcases List.mem_cons.mp ha with rfl | ham
        · exact absurd h2 ha2
        · exact h a ham ha2
      · intro h a ha ha2
        exact h a (List.mem_cons_of_mem c ha) ha2
    · rw [isSetCheck, if_neg h2, if_neg hv]
      by_cases hveq : v = c.order
      · rw [if_pos hveq, ih v hv]
        constructor
        · intro h a ha ha2
          rcases List.mem_cons.mp ha with rfl | ham
          · exact hveq.symm
          · exact h a ham ha2
        · intro h a ha ha2
          exact h a (List.mem_cons_of_mem c ha) ha2
      · rw [if_neg hveq]
        constructor
        · intro h
          exact absurd h (by simp)
        · intro h
          exact ((fun he => hveq he.symm) (h c (List.mem_cons_self c cs) h2)).elim

/-- The characterization of isSet on hands whose orders avoid 0 (every
real card has order 1 to 13): true exactly when any two non wildcards
agree in order. -/
theorem isSet_iff :
    ∀ l : List Card, (∀ c ∈ l, c.order ≠ 0) →
      (isSet l = true ↔
        ∀ a ∈ l, ∀ b ∈ l, a.order ≠ 2 → b.order ≠ 2 → a.order = b.order) := by
  intro l
  induction l with
  | nil => intro _; simp [isSet, isSetCheck]
  | cons c cs ih =>
    intro h0
    by_cases h2 : c.order = 2
    · rw [isSet, isSetCheck, if_pos h2]
      have hrec : isSetCheck cs 0 = isSet cs := rfl
      rw [hrec, ih (fun d hd => h0 d (List.mem_cons_of_mem c hd))]
      constructor
      · intro h a ha b hb ha2 hb2
        rcases List.mem_cons.mp ha with rfl | ham
        · exact absurd h2 ha2
        · rcases List.mem_cons.mp hb with rfl | hbm
          · exact absurd h2 hb2
          · exact h a ham b hbm ha2 hb2
      · intro h a ha b hb ha2 hb2
        exact h a (List.mem_cons_of_mem c ha) b (List.mem_cons_of_mem c hb) ha2 hb2
    · have hc0 : c.order ≠ 0 := h0 c (List.mem_cons_self c cs)
      rw [isSet, isSetCheck, if_neg h2, if_pos rfl, isSetCheck_iff cs c.order hc0]
      constructor
      · intro h a ha b hb ha2 hb2
        have key : ∀ x ∈ c :: cs, x.order ≠ 2 → x.order = c.order := by
          intro x hx hx2
          rcases List.mem_cons.mp hx with rfl | hxm
          · rfl
          · exact h x hxm hx2
        rw [key a ha ha2, key b hb hb2]
      · intro h a ha ha2
        exact h a (List.mem_cons_of_mem c ha) c (List.mem_cons_self c cs) ha2 h2

/-- isSet only depends on the multiset of cards (orders 0 excluded,
which every real card satisfies). -/
theorem isSet_perm (l1 l2 : List Card) (hp : l1.Perm l2)
    (h0 : ∀ c ∈ l1, c.order ≠ 0) : isSet l1 = isSet l2 := by
  have h02 : ∀ c ∈ l2, c.order ≠ 0 := fun c hc => h0 c (hp.symm.subset hc)
  have hiff : isSet l1 = true ↔ isSet l2 = true := by
    rw [isSet_iff l1 h0, isSet_iff l2 h02]
    constructor
    · intro h a ha b hb
      exact h a (hp.symm.subset ha) b (hp.symm.subset hb)
    · intro h a ha b hb
      exact h a (hp.subset ha) b (hp.subset hb)
  cases hb1 : isSet l1 <;> cases hb2 : isSet l2
  · rfl
  · exact ((Bool.false_ne_true (hb1 ▸ hiff.mpr hb2)).elim)
  · exact ((Bool.false_ne_true (hb2 ▸ hiff.mp hb1)).elim)
  · rfl

/-- The sorted non wildcard remainders of two permuted groups are
permuted. -/
theorem nonWildSorted_perm (l1 l2 : List Card) (hp : l1.Perm l2) :
    (nonWildSorted l1).Perm (nonWildSorted l2) :=
  (((List.perm_insertionSort _ l1).trans hp).trans
    (List.perm_insertionSort _ l2).symm).filter _

/-- The sorted non wildcard remainder is sorted by order. -/
theorem nonWildSorted_sorted (l : List Card) :
    (nonWildSorted l).Pairwise (fun a b => a.order ≤ b.order) :=
  (List.sorted_insertionSort (fun a b : Card => a.order ≤ b.order) l).sublist
    (List.filter_sublist _)

/-- Two permuted groups produce the same sorted order sequence. -/
theorem nonWildSorted_map_eq (l1 l2 : List Card) (hp : l1.Perm l2) :
    (nonWildSorted l1).map Card.order = (nonWildSorted l2).map Card.order := by
  have hs1 : List.Sorted (· ≤ ·) ((nonWildSorted l1).map Card.order) := by
    show ((nonWildSorted l1).map Card.order).Pairwise (· ≤ ·)
    rw [List.pairwise_map]
    exact nonWildSorted_sorted l1
  have hs2 : List.Sorted (· ≤ ·) ((nonWildSorted l2).map Card.order) := by
    show ((nonWildSorted l2).map Card.order).Pairwise (· ≤ ·)
    rw [List.pairwise_map]
    exact nonWildSorted_sorted l2
  exact List.eq_of_perm_of_sorted ((nonWildSorted_perm l1 l2 hp).map Card.order) hs1 hs2

/-- isRun only depends on the multiset of cards. -/
theorem isRun_perm (l1 l2 : List Card) (hp : l1.Perm l2) : isRun l1 = isRun l2 := by
  have hmap := nonWildSorted_map_eq l1 l2 hp
  have hmem := nonWildSorted_perm l1 l2 hp
  have hw : wildCount l1 = wildCount l2 := (hp.filter _).length_eq
  have hiff : isRunSpec l1 ↔ isRunSpec l2 := by
    rw [isRunSpec, isRunSpec]
    have hb : List.Chain' (fun a b : Card => a.order < b.order) (nonWildSorted l1) ↔
        List.Chain' (fun a b : Card => a.order < b.order) (nonWildSorted l2) := by
      rw [← List.chain'_map Card.order, ← List.chain'_map Card.order, hmap]
    rw [hmap, hw, hb]
    constructor
    · intro h
      exact ⟨fun a ha b hb2 => h.1 a (hmem.symm.subset ha) b (hmem.symm.subset hb2),
             h.2.1, h.2.2⟩
    · intro h
      exact ⟨fun a ha b hb2 => h.1 a (hmem.subset ha) b (hmem.subset hb2), h.2.1, h.2.2⟩
  have h1 := isRun_characterization l1
  have h2 := isRun_characterization l2
  cases hb1 : isRun l1 <;> cases hb2 : isRun l2
  · rfl
  · exact ((Bool.false_ne_true (hb1 ▸ h1.mpr (hiff.mpr (h2.mp hb2)))).elim)
  · exact ((Bool.false_ne_true (hb2 ▸ h2.mpr (hiff.mp (h1.mp hb1)))).elim)
  · rfl

/-- Meld validity only depends on the multiset of cards (orders 0
excluded). -/
theorem meldValid_perm (l1 l2 : List Card) (hp : l1.Perm l2)
    (h0 : ∀ c ∈ l1, c.order ≠ 0) : meldValid l1 = meldValid l2 := by
  rw [meldValid, meldValid, isRun_perm l1 l2 hp, isSet_perm l1 l2 hp h0]

/-- Replacing the unique card of a given id is, up to order, removing it
and putting the replacement in front. -/
theorem replaceFirstById_perm (pc : Card) :
    ∀ (l : List Card) (mc : Card), mc ∈ l → (l.map Card.id).Nodup →
      (replaceFirstById l mc.id pc).Perm (pc :: l.filter (fun c => c.id ≠ mc.id)) := by
  intro l
  induction l with
  | nil => intro mc hmc _; exact absurd hmc (List.not_mem_nil mc)
  | cons c cs ih =>
    intro mc hmc hnd
    simp only [List.map_cons, List.nodup_cons] at hnd
    by_cases hc : c.id = mc.id
    · rw [replaceFirstById, if_pos hc]
      have hfil : cs.filter (fun d => d.id ≠ mc.id) = cs := by
        refine List.filter_eq_self.mpr ?_
        intro d hd
        have : d.id ≠ c.id := by
          intro he
          exact hnd.1 (he ▸ List.mem_map_of_mem Card.id hd)
        simp [hc ▸ this]
      have hkeep : List.filter (fun d => decide (d.id ≠ mc.id)) (c :: cs) =
          cs.filter (fun d => decide (d.id ≠ mc.id)) := by
        rw [List.filter_cons]
        simp [hc]
      rw [hkeep]
      rw [show cs.filter (fun d => decide (d.id ≠ mc.id)) = cs from hfil]
    · rw [replaceFirstById, if_neg hc]
      have hmcs : mc ∈ cs := by
        rcases List.mem_cons.mp hmc with rfl | h
        · exact absurd rfl hc
        · exact h
      have hkeep : List.filter (fun d => decide (d.id ≠ mc.id)) (c :: cs) =
          c :: cs.filter (fun d => decide (d.id ≠ mc.id)) := by
        rw [List.filter_cons]
        simp [hc]
      rw [hkeep]
      refine ((ih mc hmcs hnd.2).cons c).trans ?_
      exact List.Perm.swap pc c _

/-- Claim C7 (amended): Meld.swap itself never requires the outgoing
card to be a wildcard (the counterexample shows a non wildcard swap
going through; the wildcard choice is made by the caller swapWithMeld).
What swap does enforce: with the outgoing card a genuine unique member
of the meld, the swap is accepted exactly when the group with playerCard
substituted for meldCard still passes validation, and a rejected swap
leaves the meld untouched. -/
theorem meldSwap_characterization (m : Meld) (mc pc : Card)
    (hmem : mc ∈ m.cards)
    (hnd : (m.cards.map Card.id).Nodup)
    (h0 : ∀ c ∈ m.cards, c.order ≠ 0) (hpc : pc.order ≠ 0) :
    ((meldSwap m mc pc).2 = true ↔
      meldValid (replaceFirstById m.cards mc.id pc) = true) ∧
    ((meldSwap m mc pc).2 = false → (meldSwap m mc pc).1 = m) := by
  have hperm : (replaceFirstById m.cards mc.id pc).Perm
      (pc :: m.cards.filter (fun c => c.id ≠ mc.id)) :=
    replaceFirstById_perm pc m.cards mc hmem hnd
  have h0r : ∀ c ∈ replaceFirstById m.cards mc.id pc, c.order ≠ 0 := by
    intro c hc
    rcases List.mem_cons.mp (hperm.subset hc) with rfl | hf
    · exact hpc
    · exact h0 c (List.mem_of_mem_filter hf)
  have hval : meldValid (replaceFirstById m.cards mc.id pc) =
      meldValid (pc :: m.cards.filter (fun c => c.id ≠ mc.id)) :=
    meldValid_perm _ _ hperm h0r
  constructor
  · rw [meldSwap]
    by_cases hv : meldValid (pc :: m.cards.filter (fun c => c.id ≠ mc.id)) = true
    · rw [if_pos hv]
      constructor
      · intro _
        rw [hval]
        exact hv
      · intro _
        rfl
    · rw [if_neg hv]
      constructor
      · intro h
        exact absurd h (by simp)
      · intro h
        rw [hval] at h
        exact absurd h hv
  · rw [meldSwap]
    by_cases hv : meldValid (pc :: m.cards.filter (fun c => c.id ≠ mc.id)) = true
    · rw [if_pos hv]
      intro h
      exact absurd h (by simp)
    · rw [if_neg hv]
      intro _
      rfl

/-- Under distinct ids the splice scan is a plain filter (the skipped
element after a removal cannot carry the removed id again). -/
theorem discardRemove_eq_filter (cid : Nat) :
    ∀ l : List Card, (l.map Card.id).Nodup →
      discardRemove cid l = l.filter (fun c => c.id ≠ cid) := by
  intro l
  induction l with
  | nil => intro _; rfl
  | cons c cs ih =>
    intro hnd
    simp only [List.map_cons, List.nodup_cons] at hnd
    by_cases hc : c.id = cid
    · rw [discardRemove.eq_def]
      simp only [if_pos hc]
      have hnom : ∀ d ∈ cs, d.id ≠ cid := by
        intro d hd he
        exact hnd.1 (hc ▸ he ▸ List.mem_map_of_mem Card.id hd)
      have hfil : cs.filter (fun c => c.id ≠ cid) = cs :=
        List.filter_eq_self.mpr (fun d hd => by simp [hnom d hd])
      rw [List.filter_cons_of_neg (by simp [hc])]
      rw [hfil]
      cases cs with
      | nil => rfl
      | cons d ds =>
        have hds : ∀ e ∈ ds, e.id ≠ cid :=
          fun e he => hnom e (List.mem_cons_of_mem d he)
        show d :: discardRemove cid ds = d :: ds
        rw [discardRemove_of_not_mem cid ds hds]
    · rw [discardRemove.eq_def]
      simp only [if_neg hc]
      rw [List.filter_cons_of_pos (by simp [hc])]
      rw [ih hnd.2]

/-- Filtering by id keeps the ids distinct. -/
theorem filter_ids_nodup (l : List Card) (p : Card → Bool)
    (hnd : (l.map Card.id).Nodup) : ((l.filter p).map Card.id).Nodup := by
  refine List.Nodup.sublist ?_ hnd
  exact (List.filter_sublist l).map Card.id

/-- The removal loop of MayI.meld filters every listed id out of a hand
with distinct ids. -/
theorem removeCards_eq_filter :
    ∀ (cids : List Nat) (l : List Card), (l.map Card.id).Nodup →
      removeCards l cids = l.filter (fun c => c.id ∉ cids) := by
  intro cids
  induction cids with
  | nil =>
    intro l _
    rw [removeCards]
    exact (List.filter_eq_self.mpr (fun a _ => by simp)).symm
  | cons cid rest ih =>
    intro l hnd
    rw [removeCards, discardRemove_eq_filter cid l hnd]
    rw [ih _ (filter_ids_nodup l _ hnd)]
    rw [List.filter_filter]
    refine List.filter_congr ?_
    intro a _
    by_cases h1 : a.id = cid <;> by_cases h2 : a.id ∈ rest <;> simp [h1, h2]

/-- Looking up the updated key returns the updated player. -/
theorem find?_map_update (p : String) (f : Player → Player) :
    ∀ l : List (String × Player),
      (((l.map (fun e => if e.1 = p then (e.1, f e.2) else e)).find?
          (fun e => e.1 = p)).map (fun e => e.2)) =
        ((l.find? (fun e => e.1 = p)).map (fun e => e.2)).map f := by
  intro l
  induction l with
  | nil => rfl
  | cons e rest ih =>
    by_cases he : e.1 = p
    · rw [List.map_cons, if_pos he]
      rw [List.find?_cons_of_pos _ (by simp [he])]
      rw [List.find?_cons_of_pos _ (by simp [he])]
      rfl
    · rw [List.map_cons, if_neg he]
      rw [List.find?_cons_of_neg _ (by simp [he])]
      rw [List.find?_cons_of_neg _ (by simp [he])]
      exact ih

/-- Lookup after updatePlayer. -/
theorem lookupPlayer_update (st : GameState) (p : String) (f : Player → Player) :
    lookupPlayer (updatePlayer st p f) p = (lookupPlayer st p).map f :=
  find?_map_update p f st.players

/-- The shape gate can only hand back the prepared commit. -/
theorem meldShapeCheck_some (groups : List (List Card)) (req : Nat × Nat)
    (commit : GameState) (st2 : GameState) :
    meldShapeCheck groups req commit = some st2 → st2 = commit := by
  rw [meldShapeCheck]
  by_cases hl : groups.length ≠ req.1
  · rw [if_pos hl]
    intro h
    exact absurd h (by simp)
  · rw [if_neg hl]
    by_cases ha : groups.any (fun g =>
        decide (g.length < req.2) || decide (meldTypeOf g = MeldType.RUN)) = true
    · rw [if_pos ha]
      intro h
      exact absurd h (by simp)
    · rw [if_neg ha]
      intro h
      exact (Option.some.inj h).symm

/-- The shape branch of MayI.meld: accepted exactly when the group count
matches and every group is long enough and none is a pure run. -/
theorem shape_branch_iff (groups : List (List Card)) (req : Nat × Nat) (commit : GameState) :
    ((meldShapeCheck groups req commit).isSome = true ↔
      (groups.length = req.1 ∧ (∀ g ∈ groups, req.2 ≤ g.length) ∧
       ∀ g ∈ groups, meldTypeOf g ≠ MeldType.RUN)) := by
  rw [meldShapeCheck]
  by_cases hl : groups.length = req.1
  · rw [if_neg (by simpa using hl)]
    by_cases ha : groups.any (fun g =>
        decide (g.length < req.2) || decide (meldTypeOf g = MeldType.RUN)) = true
    · rw [if_pos ha]
      simp only [Option.isSome_none, Bool.false_eq_true, false_iff]
      rintro ⟨_, hlen2, hrun⟩
      rw [List.any_eq_true] at ha
      rcases ha with ⟨g, hg, hor⟩
      simp only [Bool.or_eq_true, decide_eq_true_eq] at hor
      rcases hor with h | h
      · exact absurd h (by have := hlen2 g hg; omega)
      · exact hrun g hg h
    · rw [if_neg ha]
      simp only [Option.isSome_some, true_iff]
      refine ⟨hl, ?_, ?_⟩
      · intro g hg
        by_contra hcon
        exact ha (List.any_eq_true.mpr ⟨g, hg, by simp; omega⟩)
      · intro g hg hcon
        exact ha (List.any_eq_true.mpr ⟨g, hg, by simp [hcon]⟩)
  · rw [if_pos (by simpa using hl)]
    simp only [Option.isSome_none, Bool.false_eq_true, false_iff]
    rintro ⟨h, _⟩
    exact hl h

/-- The per round shape of the specification coincides with the table
row the code looks up, for each of the six rounds. -/
theorem roundShapeClaim_eq (r : Nat) (h1 : 1 ≤ r) (h6 : r ≤ 6) (req : Nat × Nat)
    (hget : roundReqs.get? (r - 1) = some req) (groups : List (List Card)) :
    roundShapeClaim r groups ↔
      (groups.length = req.1 ∧ (∀ g ∈ groups, req.2 ≤ g.length) ∧
       ∀ g ∈ groups, meldTypeOf g ≠ MeldType.RUN) := by
  interval_cases r
  · obtain rfl : req = (2, 3) := (Option.some.inj hget).symm
    constructor
    · intro h
      exact ⟨(h.1 rfl).1, (h.1 rfl).2, h.2.2.2.2.2.2⟩
    · intro h
      exact ⟨fun _ => ⟨h.1, h.2.1⟩, fun hr => absurd hr (by omega), fun hr => absurd hr (by omega), fun hr => absurd hr (by omega), fun hr => absurd hr (by omega), fun hr => absurd hr (by omega), h.2.2⟩
  · obtain rfl : req = (1, 4) := (Option.some.inj hget).symm
    constructor
    · intro h
      exact ⟨(h.2.1 rfl).1, (h.2.1 rfl).2, h.2.2.2.2.2.2⟩
    · intro h
      exact ⟨fun hr => absurd hr (by omega), fun _ => ⟨h.1, h.2.1⟩, fun hr => absurd hr (by omega), fun hr => absurd hr (by omega), fun hr => absurd hr (by omega), fun hr => absurd hr (by omega), h.2.2⟩
  · obtain rfl : req = (2, 4) := (Option.some.inj hget).symm
    constructor
    · intro h
      exact ⟨(h.2.2.1 rfl).1, (h.2.2.1 rfl).2, h.2.2.2.2.2.2⟩
    · intro h
      exact ⟨fun hr => absurd hr (by omega), fun hr => absurd hr (by omega), fun _ => ⟨h.1, h.2.1⟩, fun hr => absurd hr (by omega), fun hr => absurd hr (by omega), fun hr => absurd hr (by omega), h.2.2⟩
  · obtain rfl : req = (1, 5) := (Option.some.inj hget).symm
    constructor
    · intro h
      exact ⟨(h.2.2.2.1 rfl).1, (h.2.2.2.1 rfl).2, h.2.2.2.2.2.2⟩
    · intro h
      exact ⟨fun hr => absurd hr (by omega), fun hr => absurd hr (by omega), fun hr => absurd hr (by omega), fun _ => ⟨h.1, h.2.1⟩, fun hr => absurd hr (by omega), fun hr => absurd hr (by omega), h.2.2⟩
  · obtain rfl : req = (1, 6) := (Option.some.inj hget).symm
    constructor
    · intro h
      exact ⟨(h.2.2.2.2.1 rfl).1, (h.2.2.2.2.1 rfl).2, h.2.2.2.2.2.2⟩
    · intro h
      exact ⟨fun hr => absurd hr (by omega), fun hr => absurd hr (by omega), fun hr => absurd hr (by omega), fun hr => absurd hr (by omega), fun _ => ⟨h.1, h.2.1⟩, fun hr => absurd hr (by omega), h.2.2⟩
  · obtain rfl : req = (2, 5) := (Option.some.inj hget).symm
    constructor
    · intro h
      exact ⟨(h.2.2.2.2.2.1 rfl).1, (h.2.2.2.2.2.1 rfl).2, h.2.2.2.2.2.2⟩
    · intro h
      exact ⟨fun hr => absurd hr (by omega), fun hr => absurd hr (by omega), fun hr => absurd hr (by omega), fun hr => absurd hr (by omega), fun hr => absurd hr (by omega), fun _ => ⟨h.1, h.2.1⟩, h.2.2⟩

/-- Claim C2: meld succeeds exactly when every group passes validation,
the total melded count differs from the hand size, and, for a player
with no meld down this round, the groups match the round shape table
with no group of type RUN; a player who already melded is exempt from
the shape and no RUN rules.  On success the new melds are appended and
the melded ids leave the hand; a rejected meld is none and touches
nothing. -/
theorem meld_characterization (st : GameState) (p : String) (pl : Player)
    (groups : List (List Card))
    (hp : lookupPlayer st p = some pl)
    (h1 : 1 ≤ st.round) (h6 : st.round ≤ 6)
    (hnd : (pl.hand.map Card.id).Nodup) :
    ((meldOp st p groups).isSome = true ↔
      ((∀ g ∈ groups, meldValid g = true) ∧
       (groups.map List.length).sum ≠ pl.hand.length ∧
       (hasMeld st p = false → roundShapeClaim st.round groups))) ∧
    (∀ st2, meldOp st p groups = some st2 →
      st2.melds = st.melds ++ groups.enum.map (fun e =>
        { id := st.melds.length + e.1, cards := e.2,
          type := meldTypeOf e.2, playerID := some pl.id : Meld }) ∧
      lookupPlayer st2 p =
        some { pl with
               hand := pl.hand.filter (fun c => c.id ∉ groups.flatten.map Card.id) }) := by
  have hcommit_melds : (meldCommit st p pl groups).melds =
      st.melds ++ groups.enum.map (fun e =>
        { id := st.melds.length + e.1, cards := e.2,
          type := meldTypeOf e.2, playerID := some pl.id : Meld }) := rfl
  have hcommit_lookup : lookupPlayer (meldCommit st p pl groups) p =
      some { pl with
             hand := pl.hand.filter (fun c => c.id ∉ groups.flatten.map Card.id) } := by
    have h2 := lookupPlayer_update st p
      (fun q => { q with hand := removeCards q.hand (groups.flatten.map Card.id) })
    rw [hp] at h2
    simp only [Option.map_some'] at h2
    rw [removeCards_eq_filter (groups.flatten.map Card.id) pl.hand hnd] at h2
    exact h2
  have hunfold : meldOp st p groups =
      (if groups.all (fun g => meldValid g) = false then none
       else if (groups.map List.length).sum = pl.hand.length then none
       else if hasMeld st p then some (meldCommit st p pl groups)
       else
         match roundReqs.get? (st.round - 1) with
         | none => none
         | some req =>
           meldShapeCheck groups req (meldCommit st p pl groups)) := by
    rw [meldOp, hp]
  rw [hunfold]
  by_cases hall : groups.all (fun g => meldValid g) = false
  · rw [if_pos hall]
    constructor
    · constructor
      · intro h
        exact absurd h (by simp)
      · rintro ⟨hA, _, _⟩
        have ht : groups.all (fun g => meldValid g) = true := List.all_eq_true.mpr hA
        rw [ht] at hall
        exact absurd hall (by simp)
    · intro st2 h
      exact absurd h (by simp)
  · have hA : ∀ g ∈ groups, meldValid g = true := by
      rw [← List.all_eq_true]
      cases hcase : groups.all (fun g => meldValid g)
      · exact absurd hcase hall
      · rfl
    rw [if_neg hall]
    by_cases htot : (groups.map List.length).sum = pl.hand.length
    · rw [if_pos htot]
      constructor
      · constructor
        · intro h
          exact absurd h (by simp)
        · rintro ⟨_, hB, _⟩
          exact absurd htot hB
      · intro st2 h
        exact absurd h (by simp)
    · rw [if_neg htot]
      by_cases hhm : hasMeld st p = true
      · rw [if_pos hhm]
        constructor
        · simp only [Option.isSome_some, true_iff]
          exact ⟨hA, htot, fun hf => (Bool.false_ne_true (hf ▸ hhm)).elim⟩
        · intro st2 h
          have hst2 : st2 = meldCommit st p pl groups := (Option.some.inj h).symm
          rw [hst2]
          exact ⟨hcommit_melds, hcommit_lookup⟩
      · have hfalse : hasMeld st p = false := by
          cases hcase : hasMeld st p
          · rfl
          · exact absurd hcase hhm
        rw [if_neg hhm]
        cases hget : roundReqs.get? (st.round - 1) with
        | none =>
          exfalso
          have hnone := List.get?_eq_none.mp hget
          have hlen : roundReqs.length = 6 := rfl
          omega
        | some req =>
          constructor
          · show (meldShapeCheck groups req (meldCommit st p pl groups)).isSome = true ↔ _
            rw [shape_branch_iff groups req (meldCommit st p pl groups)]
            rw [roundShapeClaim_eq st.round h1 h6 req hget groups]
            constructor
            · intro h
              exact ⟨hA, htot, fun _ => h⟩
            · rintro ⟨_, _, hC⟩
              exact hC hfalse
          · intro st2 h
            have hst2 : st2 = meldCommit st p pl groups :=
              meldShapeCheck_some groups req (meldCommit st p pl groups) st2 h
            rw [hst2]
            exact ⟨hcommit_melds, hcommit_lookup⟩

/-- Claim C2, witness: in the one seat room stC2 (round 1, no meld down,
seven cards in hand) the two clean triples of gsC2 are accepted, as the
characterization demands. -/
theorem meld_characterization_witness :
    lookupPlayer stC2 "A" = some { newPlayer "A" (some "sA") "a" with
      hand := [cardById 1, cardById 28, cardById 53, cardById 25,
               cardById 51, cardById 103, cardById 11] } ∧
    (meldOp stC2 "A" gsC2).isSome = true :=
  ⟨by decide,
    ((meld_characterization stC2 "A"
        { newPlayer "A" (some "sA") "a" with
          hand := [cardById 1, cardById 28, cardById 53, cardById 25,
                   cardById 51, cardById 103, cardById 11] } gsC2
        (by decide) (by decide) (by decide) (by decide)).1).mpr (by decide)⟩

/-- From a pointwise related list every member has an origin. -/
theorem forall2_mem_right {α β : Type} {R : α → β → Prop} :
    ∀ {l1 : List α} {l2 : List β}, List.Forall₂ R l1 l2 → ∀ y ∈ l2, ∃ x ∈ l1, R x y := by
  intro l1 l2 h
  induction h with
  | nil =>
    intro y hy
    exact absurd hy (List.not_mem_nil y)
  | cons hab h2 ih =>
    intro y hy
    rcases List.mem_cons.mp hy with rfl | hym
    · exact ⟨_, List.mem_cons_self _ _, hab⟩
    · obtain ⟨x, hx, hr⟩ := ih y hym
      exact ⟨x, List.mem_cons_of_mem _ hx, hr⟩

/-- Composing one extra card with n extra cards. -/
theorem forall2_hand_comp {ps mid fin : List (String × Player)} {n : Nat}
    (h1 : List.Forall₂ (fun e1 e2 : String × Player =>
      e2.1 = e1.1 ∧ e2.2.hand.length = e1.2.hand.length + 1) ps mid)
    (h2 : List.Forall₂ (fun e1 e2 : String × Player =>
      e2.1 = e1.1 ∧ e2.2.hand.length = e1.2.hand.length + n) mid fin) :
    List.Forall₂ (fun e1 e2 : String × Player =>
      e2.1 = e1.1 ∧ e2.2.hand.length = e1.2.hand.length + (n + 1)) ps fin := by
  induction h1 generalizing fin with
  | nil =>
    cases h2
    exact List.Forall₂.nil
  | cons hab h1t ih =>
    cases h2 with
    | cons hbc h2t =>
      exact List.Forall₂.cons ⟨hbc.1.trans hab.1, by omega⟩ (ih h2t)

/-- One dealing pass hands every seated player one card and consumes one
card per player from the front of the pile. -/
theorem dealPass_spec :
    ∀ (ps : List (String × Player)) (d : List Card), ps.length ≤ d.length →
      List.Forall₂ (fun e1 e2 : String × Player =>
        e2.1 = e1.1 ∧ e2.2.hand.length = e1.2.hand.length + 1) ps (dealPass ps d).1 ∧
      (dealPass ps d).2 = d.drop ps.length := by
  intro ps
  induction ps with
  | nil =>
    intro d _
    exact ⟨List.Forall₂.nil, by simp [dealPass]⟩
  | cons e ps2 ih =>
    intro d hlen
    obtain ⟨k, pl⟩ := e
    cases d with
    | nil => simp at hlen
    | cons c d2 =>
      have hlen2 : ps2.length ≤ d2.length := by simpa using hlen
      obtain ⟨hf, hd⟩ := ih d2 hlen2
      constructor
      · show List.Forall₂ _ ((k, pl) :: ps2)
          ((k, { pl with hand := pl.hand ++ [c] }) :: (dealPass ps2 d2).1)
        exact List.Forall₂.cons ⟨rfl, by simp⟩ hf
      · show (dealPass ps2 d2).2 = (c :: d2).drop (ps2.length + 1)
        simpa using hd

/-- Eleven (or n) passes hand every player n cards and consume n cards
per player. -/
theorem dealPasses_spec :
    ∀ (n : Nat) (ps : List (String × Player)) (d : List Card), n * ps.length ≤ d.length →
      List.Forall₂ (fun e1 e2 : String × Player =>
        e2.1 = e1.1 ∧ e2.2.hand.length = e1.2.hand.length + n) ps (dealPasses n ps d).1 ∧
      (dealPasses n ps d).2 = d.drop (n * ps.length) := by
  intro n
  induction n with
  | zero =>
    intro ps d _
    refine ⟨?_, ?_⟩
    · exact List.forall₂_same.mpr (fun e _ => ⟨rfl, by omega⟩)
    · show d = d.drop (0 * ps.length)
      simp
  | succ n ihn =>
    intro ps d hlen
    have hps : ps.length ≤ d.length := by
      refine le_trans ?_ hlen
      have : (n + 1) * ps.length = n * ps.length + ps.length := Nat.succ_mul n ps.length
      omega
    obtain ⟨hf1, hd1⟩ := dealPass_spec ps d hps
    have hlen1 : (dealPass ps d).1.length = ps.length := hf1.length_eq.symm
    have hlen2 : n * (dealPass ps d).1.length ≤ (dealPass ps d).2.length := by
      rw [hlen1, hd1, List.length_drop]
      have : (n + 1) * ps.length = n * ps.length + ps.length := Nat.succ_mul n ps.length
      omega
    obtain ⟨hf2, hd2⟩ := ihn (dealPass ps d).1 (dealPass ps d).2 hlen2
    constructor
    · show List.Forall₂ _ ps (dealPasses n (dealPass ps d).1 (dealPass ps d).2).1
      exact forall2_hand_comp hf1 hf2
    · show (dealPasses n (dealPass ps d).1 (dealPass ps d).2).2 = d.drop ((n + 1) * ps.length)
      rw [hd2, hlen1, hd1, List.drop_drop]
      congr 1
      rw [Nat.succ_mul]
      omega

/-- Claim C9: the deal builds a fresh 104 card pack holding two copies
of every rank and suit pairing, hands 11 cards to every player, opens
the discard pile with exactly one card, and leaves 104 - 11N - 1 cards
in the draw pile. -/
theorem deal_counts (st : GameState) (shuffled : List Card)
    (hsh : shuffled.Perm canonicalDeck)
    (hempty : ∀ e ∈ st.players, e.2.hand = [])
    (hN : st.players.length ≤ 9) :
    canonicalDeck.length = 104 ∧
    (∀ r ∈ ranks, ∀ s ∈ suits,
      (canonicalDeck.filter (fun c => c.rank = r ∧ c.suit = s)).length = 2) ∧
    (∀ e ∈ (dealOp st shuffled).players, e.2.hand.length = 11) ∧
    (dealOp st shuffled).deck.discarded.length = 1 ∧
    (dealOp st shuffled).deck.deck.length = 104 - 11 * st.players.length - 1 := by
  have hlen : shuffled.length = 104 := by
    rw [hsh.length_eq]
    rfl
  have hb : 11 * st.players.length ≤ shuffled.length := by
    rw [hlen]
    omega
  obtain ⟨hf, hd⟩ := dealPasses_spec 11 st.players shuffled hb
  have hdlen : (dealPasses 11 st.players shuffled).2.length =
      104 - 11 * st.players.length := by
    rw [hd, List.length_drop, hlen]
  obtain ⟨c, rest, hcr⟩ : ∃ c rest,
      (dealPasses 11 st.players shuffled).2 = c :: rest := by
    cases h : (dealPasses 11 st.players shuffled).2 with
    | nil =>
      rw [h] at hdlen
      simp at hdlen
      omega
    | cons c rest => exact ⟨c, rest, rfl⟩
  have hosz : dealOp st shuffled =
      { st with players := (dealPasses 11 st.players shuffled).1,
                deck := { deck := rest, discarded := [c] } } := by
    rw [dealOp, hcr]
  rw [hosz]
  refine ⟨rfl, by decide, ?_, rfl, ?_⟩
  · intro e he
    obtain ⟨x, hx, hr⟩ := forall2_mem_right hf e he
    rw [hr.2, hempty x hx]
    rfl
  · rw [hcr] at hdlen
    simp only [List.length_cons] at hdlen
    show rest.length = 104 - 11 * st.players.length - 1
    omega

/-- Claim C9, witness: the three seat room g0 dealt with the identity
shuffle leaves 104 - 33 - 1 = 70 cards in the draw pile. -/
theorem deal_counts_witness :
    canonicalDeck.Perm canonicalDeck ∧ g0.players.length ≤ 9 ∧
    (dealOp g0 canonicalDeck).deck.deck.length = 104 - 11 * g0.players.length - 1 :=
  ⟨List.Perm.refl _, by decide,
    (deal_counts g0 canonicalDeck (List.Perm.refl _) (by decide) (by decide)).2.2.2.2⟩

/-- Claim C7, witness: swapping the heart wildcard of m7w for the three
of clubs keeps the run valid and is accepted, matching the amended
characterization at a concrete input. -/
theorem meldSwap_characterization_witness :
    (cardById 55) ∈ m7w.cards ∧
    ((meldSwap m7w (cardById 55) (cardById 5)).2 = true ↔
      meldValid (replaceFirstById m7w.cards (cardById 55).id (cardById 5)) = true) :=
  ⟨by decide,
    (meldSwap_characterization m7w (cardById 55) (cardById 5)
      (by decide) (by decide) (by decide) (by decide)).1⟩

end MayI
